import Mathlib

/-!
# eip_manager: a shallow embedding of `main.go`

The program elects one Elastic IP for the running instance: it takes a
Consul lock on one slot of a key listing (`aquiredLock`) and then binds the
allocation stored in that slot to itself through the EC2 API
(`isAssociated`, `disaccociate`, `associate`).

The Go code is embedded with explicit state passing.  The process state is a
`World`: the state of the remote services, the fields of the `eIPManager`
the methods have as receiver, the counter of the Go allocator (needed for
the pointer comparison of `isAssociated`) and the history of the calls made
so far.  A Go `panic`, and a call that never returns, are outcomes.
`log.Printf` only writes to standard error and is left out.
-/

set_option autoImplicit false

namespace EipManager

/-! ## Data model -/

/-- The instance identity document, `ec2MetaData` (main.go 19-24). -/
structure ec2MetaData where
  PrivateIP : String
  AvailabilityZone : String
  InstanceID : String
  Region : String
deriving DecidableEq, Repr

/-- A Go `*string` that is not nil: the address of the cell and the string it
holds.  The cells this program allocates are never written again, so the
content is carried with the address. -/
structure StrCell where
  addr : Nat
  val : String
deriving DecidableEq, Repr

/-- A Go `*bool` that is not nil. -/
structure BoolCell where
  addr : Nat
  val : Bool
deriving DecidableEq, Repr

/-- Go `p != q` on two `*string`: pointers are equal when both are nil or
both hold the same address; the strings they point to are not looked at. -/
def ptrNe (p q : Option StrCell) : Bool :=
  p.map StrCell.addr != q.map StrCell.addr

/-- The Consul `api.KVPair`, with the fields the program reads.  `Value` is a
`[]byte` in Go; `string(k.Value)` is the identity on it. -/
structure KVPair where
  Key : String
  Value : String
  Session : String
deriving DecidableEq, Repr

/-- The Consul `api.Lock` that `client.LockKey(key)` builds for `key`. -/
structure Lock where
  key : String
deriving DecidableEq, Repr

/-- The receiver of the methods, `eIPManager` (main.go 50-58).  The fields
`svc` and `client` are the handles of the two services, which are the
`Services` argument of every method here; `lock` is nil until a lock is
taken. -/
structure eIPManager where
  metadata : ec2MetaData
  allocationID : String
  environment : String
  role : String
  lock : Option Lock
deriving DecidableEq, Repr

/-- The parameters `ec2.DescribeAddressesInput`, as the program fills them. -/
structure DescribeAddressesInput where
  AllocationIDs : List (Option StrCell)
deriving DecidableEq, Repr

/-- The parameters `ec2.AssociateAddressInput`, as the program fills them. -/
structure AssociateAddressInput where
  AllocationID : Option StrCell
  AllowReassociation : Option BoolCell
  InstanceID : Option StrCell
deriving DecidableEq, Repr

/-- The parameters `ec2.DisassociateAddressInput`, as the program fills them. -/
structure DisassociateAddressInput where
  AssociationID : Option StrCell
deriving DecidableEq, Repr

/-- One address record as the provider sends it: every field is present or
absent. -/
structure AddressData where
  AllocationID : Option String
  AssociationID : Option String
  InstanceID : Option String
deriving DecidableEq, Repr

/-- The Go `ec2.Address` the SDK decodes a record into: every field that is
present is a pointer to a newly allocated string. -/
structure Address where
  AllocationID : Option StrCell
  AssociationID : Option StrCell
  InstanceID : Option StrCell
deriving DecidableEq, Repr

/-- The Go `ec2.DescribeAddressesOutput`. -/
structure DescribeAddressesOutput where
  Addresses : List Address
deriving DecidableEq, Repr

/-- What `(*api.Lock).Lock(nil)` does: it returns the lock, returns an error,
or, with a nil stop channel, waits for a held key and does not return. -/
inductive LockResult where
  | acquired
  | failed (err : String)
  | waits
deriving DecidableEq, Repr

/-- How a piece of the program ends. -/
inductive Outcome (α : Type) where
  /-- Normal return. -/
  | ok (a : α)
  /-- A Go `panic`: the process aborts. -/
  | panic (msg : String)
  /-- The process waits in `Lock` and goes no further. -/
  | blocked
  /-- The loop of `aquiredLock` was cut after the given number of rounds. -/
  | cut
deriving DecidableEq, Repr

/-- One call made to a service, with what it was given and what it returned. -/
inductive Event where
  | kvList (pfx : String) (res : Except String (List KVPair))
  | kvGet (key : String) (pair : Option KVPair) (err : Option String)
  | lockKey (key : String) (res : Except String Unit)
  | lockLock (l : Lock) (res : LockResult)
  | randPerm (n : Nat) (p : List Nat)
  | sleep (d : Nat)
  | describeAddresses (params : DescribeAddressesInput)
      (res : Except String (List AddressData))
  | associateAddress (params : AssociateAddressInput) (res : Except String Unit)
  | disassociateAddress (params : DisassociateAddressInput) (res : Except String Unit)

/-- The services the program talks to, over a state `σ` of their own: the
Consul key-value store and lock (`kvList`, `kvGet`, `lockKey`, `lockLock`),
the generator behind `rand.Perm`, and the three EC2 calls.  Each call takes
the state and gives its result and the next state; nothing is assumed of
them, so every answer and every failure is covered.  `kvGet` gives the pair
and the error of `kv.Get` side by side. -/
structure Services (σ : Type) where
  kvList : String → σ → Except String (List KVPair) × σ
  kvGet : String → σ → (Option KVPair × Option String) × σ
  lockKey : String → σ → Except String Unit × σ
  lockLock : Lock → σ → LockResult × σ
  randPerm : Nat → σ → List Nat × σ
  describeAddresses : DescribeAddressesInput → σ → Except String (List AddressData) × σ
  associateAddress : AssociateAddressInput → σ → Except String Unit × σ
  disassociateAddress : DisassociateAddressInput → σ → Except String Unit × σ

/-- The state of the process and of its surroundings. -/
structure World (σ : Type) where
  /-- State of the remote services. -/
  env : σ
  /-- The `eIPManager` the methods are called on. -/
  mgr : eIPManager
  /-- The next address the Go allocator hands out. -/
  next : Nat
  /-- The calls made so far, oldest first. -/
  trace : List Event

variable {σ : Type}

/-! ## SDK helpers -/

/-- `aws.String(v)`: a pointer to a new cell holding `v`. -/
def awsString (v : String) (w : World σ) : StrCell × World σ :=
  (⟨w.next, v⟩, { w with next := w.next + 1 })

/-- `aws.Boolean(v)`: a pointer to a new cell holding `v`. -/
def awsBoolean (v : Bool) (w : World σ) : BoolCell × World σ :=
  (⟨w.next, v⟩, { w with next := w.next + 1 })

/-- Adds a call to the history. -/
def record (ev : Event) (w : World σ) : World σ :=
  { w with trace := w.trace ++ [ev] }

/-- Decoding of one optional field of a response into a `*string`. -/
def decodeStr (v : Option String) (w : World σ) : Option StrCell × World σ :=
  match v with
  | none => (none, w)
  | some s => (some (awsString s w).1, (awsString s w).2)

/-- Decoding of one address record. -/
def decodeAddress (a : AddressData) (w : World σ) : Address × World σ :=
  let r1 := decodeStr a.AllocationID w
  let r2 := decodeStr a.AssociationID r1.2
  let r3 := decodeStr a.InstanceID r2.2
  (⟨r1.1, r2.1, r3.1⟩, r3.2)

/-- Decoding of the address records of a response, in order. -/
def decodeAddresses : List AddressData → World σ → List Address × World σ
  | [], w => ([], w)
  | a :: rest, w =>
    let r1 := decodeAddress a w
    let r2 := decodeAddresses rest r1.2
    (r1.1 :: r2.1, r2.2)

/-- The call `e.svc.DescribeAddresses(params)`: the request goes to the
provider, and the SDK decodes the records of a successful response into
newly allocated Go values. -/
def svcDescribeAddresses (sv : Services σ) (params : DescribeAddressesInput)
    (w : World σ) : Except String DescribeAddressesOutput × World σ :=
  let r := sv.describeAddresses params w.env
  let w1 := record (.describeAddresses params r.1) { w with env := r.2 }
  match r.1 with
  | .error err => (.error err, w1)
  | .ok recs =>
    let d := decodeAddresses recs w1
    (.ok ⟨d.1⟩, d.2)

/-- The call `e.svc.AssociateAddress(params)`. -/
def svcAssociateAddress (sv : Services σ) (params : AssociateAddressInput)
    (w : World σ) : Except String Unit × World σ :=
  let r := sv.associateAddress params w.env
  (r.1, record (.associateAddress params r.1) { w with env := r.2 })

/-- The call `e.svc.DisassociateAddress(params)`. -/
def svcDisassociateAddress (sv : Services σ) (params : DisassociateAddressInput)
    (w : World σ) : Except String Unit × World σ :=
  let r := sv.disassociateAddress params w.env
  (r.1, record (.disassociateAddress params r.1) { w with env := r.2 })

/-! ## The address binder (main.go 101-148) -/

/-- The method `isAssociated` (main.go 101-121).  The request carries a pointer
to a copy of `e.allocationID`; an error of the call and an empty `Addresses`
both panic; otherwise the `AssociationID` pointer of the first record is
compared, as a pointer, with the pointer `aws.String("")` returns. -/
def isAssociated (sv : Services σ) (w : World σ) : Outcome Bool × World σ :=
  let a := awsString w.mgr.allocationID w
  let params : DescribeAddressesInput := ⟨[some a.1]⟩
  match svcDescribeAddresses sv params a.2 with
  | (.error err, w1) => (.panic err, w1)
  | (.ok resp, w1) =>
    match resp.Addresses with
    | [] => (.panic ("Could not find EIP with AllocationID " ++ w.mgr.allocationID), w1)
    | address :: _ =>
      let s := awsString "" w1
      if ptrNe address.AssociationID (some s.1) then (.ok false, s.2)
      else (.ok true, s.2)

/-- The method `associate` (main.go 123-136): the request names the allocation
and the instance of the manager and sets `AllowReassociation`; an error of the
call panics. -/
def associate (sv : Services σ) (w : World σ) : Outcome Unit × World σ :=
  let a := awsString w.mgr.allocationID w
  let b := awsBoolean true a.2
  let c := awsString w.mgr.metadata.InstanceID b.2
  let params : AssociateAddressInput :=
    { AllocationID := some a.1, AllowReassociation := some b.1, InstanceID := some c.1 }
  match svcAssociateAddress sv params c.2 with
  | (.error err, w1) => (.panic err, w1)
  | (.ok _, w1) => (.ok (), w1)

/-- The method `disaccociate` (main.go 138-148): the `AssociationID` of the
request is a pointer to a copy of `e.allocationID`; an error of the call is
logged and the method returns. -/
def disaccociate (sv : Services σ) (w : World σ) : Outcome Unit × World σ :=
  let a := awsString w.mgr.allocationID w
  let params : DisassociateAddressInput := { AssociationID := some a.1 }
  match svcDisassociateAddress sv params a.2 with
  | (.error _, w1) => (.ok (), w1)
  | (.ok _, w1) => (.ok (), w1)

/-- The end of `main` once `m.isAssociated()` has returned `assoc`
(main.go 174-177): `m.disaccociate()` when `assoc` holds, and then
`m.associate()`. -/
def mainAfterCheck (sv : Services σ) (assoc : Bool) (w : World σ) : Outcome Unit × World σ :=
  if assoc then
    match disaccociate sv w with
    | (.ok _, w1) => associate sv w1
    | (.panic msg, w1) => (.panic msg, w1)
    | (.blocked, w1) => (.blocked, w1)
    | (.cut, w1) => (.cut, w1)
  else associate sv w

/-- The end of `main` (main.go 174-177): `if m.isAssociated() { m.disaccociate() }`
and then `m.associate()`. -/
def reconcile (sv : Services σ) (w : World σ) : Outcome Unit × World σ :=
  match isAssociated sv w with
  | (.ok assoc, w1) => mainAfterCheck sv assoc w1
  | (.panic msg, w1) => (.panic msg, w1)
  | (.blocked, w1) => (.blocked, w1)
  | (.cut, w1) => (.cut, w1)

/-! ## The slot selector (main.go 60-95) -/

/-- The call `kv.List(pfx, &api.QueryOptions{})`. -/
def kvList (sv : Services σ) (pfx : String) (w : World σ) :
    Except String (List KVPair) × World σ :=
  let r := sv.kvList pfx w.env
  (r.1, record (.kvList pfx r.1) { w with env := r.2 })

/-- The call `kv.Get(key, nil)`; only the pair is given back, since the program
never looks at the error of this call. -/
def kvGet (sv : Services σ) (key : String) (w : World σ) : Option KVPair × World σ :=
  let r := sv.kvGet key w.env
  (r.1.1, record (.kvGet key r.1.1 r.1.2) { w with env := r.2 })

/-- The call `e.client.LockKey(key)`: a lock for `key`, or an error. -/
def clientLockKey (sv : Services σ) (key : String) (w : World σ) :
    Except String Lock × World σ :=
  let r := sv.lockKey key w.env
  let w1 := record (.lockKey key r.1) { w with env := r.2 }
  match r.1 with
  | .error err => (.error err, w1)
  | .ok _ => (.ok ⟨key⟩, w1)

/-- The call `l.Lock(nil)`. -/
def lockLock (sv : Services σ) (l : Lock) (w : World σ) : LockResult × World σ :=
  let r := sv.lockLock l w.env
  (r.1, record (.lockLock l r.1) { w with env := r.2 })

/-- The call `rand.Perm(n)`. -/
def randPerm (sv : Services σ) (n : Nat) (w : World σ) : List Nat × World σ :=
  let r := sv.randPerm n w.env
  (r.1, record (.randPerm n r.1) { w with env := r.2 })

/-- How one round of the inner loop ends: `continue` with the next index, or
`return` from `aquiredLock`. -/
inductive Flow where
  | goOn
  | returned
deriving DecidableEq, Repr

/-- Whether the pair read for a lock entry lets the program go on to lock it:
the pair is nil, or its `Session` is empty (main.go 73-78). -/
def readFree : Option KVPair → Bool
  | none => true
  | some lk => lk.Session == ""

/-- The body of the inner loop once `k := potentialKeys[i]` is read
(main.go 71-91): the lock entry of the key is read; a pair with a session
makes the loop `continue`; otherwise the lock is built and acquired, an
error of either call panics, and on success the lock and the value of `k` are
stored in the manager and `aquiredLock` returns. -/
def visitKey (sv : Services σ) (k : KVPair) (w : World σ) : Outcome Flow × World σ :=
  let lockKey := "lock/" ++ k.Key
  let g := kvGet sv lockKey w
  if readFree g.1 then
    match clientLockKey sv lockKey g.2 with
    | (.error err, w1) => (.panic err, w1)
    | (.ok l, w1) =>
      match lockLock sv l w1 with
      | (.failed err, w2) => (.panic err, w2)
      | (.waits, w2) => (.blocked, w2)
      | (.acquired, w2) =>
        (.ok .returned,
          { w2 with mgr := { w2.mgr with lock := some l, allocationID := k.Value } })
  else (.ok .goOn, g.2)

/-- The body of the inner loop for the index `i` (main.go 70-91); an index
outside of `potentialKeys` is a run-time panic. -/
def visit (sv : Services σ) (potentialKeys : List KVPair) (i : Nat) (w : World σ) :
    Outcome Flow × World σ :=
  match potentialKeys[i]? with
  | none => (.panic "index out of range", w)
  | some k => visitKey sv k w

/-- The inner loop over the indices `is`, in order, until a round does not
`continue`. -/
def visitAll (sv : Services σ) (potentialKeys : List KVPair) :
    List Nat → World σ → Outcome Flow × World σ
  | [], w => (.ok .goOn, w)
  | i :: is, w =>
    match visit sv potentialKeys i w with
    | (.ok .goOn, w1) => visitAll sv potentialKeys is w1
    | r => r

/-- One round of the outer loop, up to the `time.Sleep` (main.go 64-92): the
listing, then `for i := range rand.Perm(len(potentialKeys))`, in which `i`
is the index into the permutation. -/
def aquiredLockPass (sv : Services σ) (pfx : String) (w : World σ) :
    Outcome Flow × World σ :=
  match kvList sv pfx w with
  | (.error err, w1) => (.panic err, w1)
  | (.ok potentialKeys, w1) =>
    let p := randPerm sv potentialKeys.length w1
    visitAll sv potentialKeys (List.range p.1.length) p.2

/-- The method `aquiredLock` (main.go 60-95), cut after `fuel` rounds of the
outer loop. -/
def aquiredLock (sv : Services σ) (pfx : String) : Nat → World σ → Outcome Unit × World σ
  | 0, w => (.cut, w)
  | fuel + 1, w =>
    match aquiredLockPass sv pfx w with
    | (.ok .returned, w1) => (.ok (), w1)
    | (.ok .goOn, w1) => aquiredLock sv pfx fuel (record (.sleep 3) w1)
    | (.panic msg, w1) => (.panic msg, w1)
    | (.blocked, w1) => (.blocked, w1)
    | (.cut, w1) => (.cut, w1)

/-- The state `main` builds the manager in (main.go 167-171). -/
def start (md : ec2MetaData) (env : σ) : World σ :=
  { env := env
    mgr := { metadata := md, allocationID := "", environment := "", role := "", lock := none }
    next := 0
    trace := [] }

/-- The function `main` from the construction of the manager on
(main.go 167-177). -/
def mainFrom (sv : Services σ) (pfx : String) (fuel : Nat) (md : ec2MetaData) (env : σ) :
    Outcome Unit × World σ :=
  match aquiredLock sv pfx fuel (start md env) with
  | (.ok _, w1) => reconcile sv w1
  | r => r

/-! ## A model of the services

The two services are outside of the program; this is a model of the
interface the program uses.  The Consul store is a list of pairs, in which a
lock on a key is the pair of that key carrying a session.  The provider is a
list of the allocations it knows with the instance each is bound to; it
resolves a handle to its record, binds a handle to an instance (overriding
another binding only when the request allows reassociation) and removes an
association named by its identifier.  No call of this model fails for a
reason of its own. -/

/-- One allocation the provider knows, and the instance it is bound to. -/
structure AddrEntry where
  alloc : String
  boundTo : Option String
deriving DecidableEq, Repr

/-- State of the modelled services. -/
structure Model where
  /-- The Consul key-value store. -/
  kv : List KVPair
  /-- The permutations `rand.Perm` is going to draw. -/
  tape : List (List Nat)
  /-- The allocations of the provider. -/
  addresses : List AddrEntry
deriving DecidableEq, Repr

/-- Whether `key` starts with `pfx`. -/
def hasPrefix (pfx key : String) : Bool :=
  pfx.data.isPrefixOf key.data

/-- The session a lock on `key` is held under. -/
def sessionOf (key : String) : String :=
  "session:" ++ key

/-- The name the provider gives the association of the allocation `alloc`. -/
def assocName (alloc : String) : String :=
  "eipassoc:" ++ alloc

/-- Listing of the pairs under a prefix. -/
def Model.kvList (pfx : String) (m : Model) : Except String (List KVPair) × Model :=
  (.ok (m.kv.filter (fun p => hasPrefix pfx p.Key)), m)

/-- The pair stored at a key, if there is one. -/
def Model.lookup (m : Model) (key : String) : Option KVPair :=
  m.kv.find? (fun p => p.Key == key)

/-- Reading of one key. -/
def Model.kvGet (key : String) (m : Model) : (Option KVPair × Option String) × Model :=
  ((m.lookup key, none), m)

/-- Construction of a lock. -/
def Model.lockKey (_key : String) (m : Model) : Except String Unit × Model :=
  (.ok (), m)

/-- Acquisition of a lock: a key held under a session is waited for; an entry
without session, or a missing entry, is written with the session of the
caller. -/
def Model.lockLock (l : Lock) (m : Model) : LockResult × Model :=
  match m.lookup l.key with
  | some p =>
    if p.Session != "" then (.waits, m)
    else
      (.acquired,
        { m with kv := m.kv.map (fun q =>
            if q.Key == l.key then ⟨l.key, "", sessionOf l.key⟩ else q) })
  | none => (.acquired, { m with kv := m.kv ++ [⟨l.key, "", sessionOf l.key⟩] })

/-- The generator: the next permutation of the tape when it is a permutation of
`0 .. n-1`, the identity otherwise. -/
def Model.randPerm (n : Nat) (m : Model) : List Nat × Model :=
  match m.tape with
  | [] => (List.range n, m)
  | p :: rest =>
    if p.isPerm (List.range n) then (p, { m with tape := rest })
    else (List.range n, { m with tape := rest })

/-- The record the provider reports for an allocation. -/
def addressData (a : AddrEntry) : AddressData :=
  { AllocationID := some a.alloc
    AssociationID := a.boundTo.map (fun _ => assocName a.alloc)
    InstanceID := a.boundTo }

/-- Binding of the entry to `inst` when it is the allocation `alloc`. -/
def AddrEntry.bindIf (alloc inst : String) (a : AddrEntry) : AddrEntry :=
  if a.alloc == alloc then { a with boundTo := some inst } else a

/-- The instance an allocation is bound to: `none` when the provider does not
know the allocation, `some none` when it is bound to no instance. -/
def Model.binding (m : Model) (alloc : String) : Option (Option String) :=
  (m.addresses.find? (fun a => a.alloc == alloc)).map AddrEntry.boundTo

/-- The provider state in which the allocation `alloc` is bound to `inst`. -/
def Model.rebind (m : Model) (alloc inst : String) : Model :=
  { m with addresses := m.addresses.map (AddrEntry.bindIf alloc inst) }

/-- The provider call DescribeAddresses: the records of the allocations named
in the request. -/
def Model.describeAddresses (params : DescribeAddressesInput) (m : Model) :
    Except String (List AddressData) × Model :=
  let ids := params.AllocationIDs.filterMap (fun p => p.map StrCell.val)
  (.ok ((m.addresses.filter (fun a => ids.contains a.alloc)).map addressData), m)

/-- The provider call AssociateAddress: an unknown allocation is an error, and
so is an allocation bound to another instance unless the request allows
reassociation; otherwise the allocation is bound to the instance. -/
def Model.associateAddress (params : AssociateAddressInput) (m : Model) :
    Except String Unit × Model :=
  match params.AllocationID, params.InstanceID with
  | some h, some i =>
    match m.binding h.val with
    | none => (.error "InvalidAllocationID.NotFound", m)
    | some b =>
      if b.isSome && b != some i.val &&
          params.AllowReassociation.map BoolCell.val != some true then
        (.error "Resource.AlreadyAssociated", m)
      else
        (.ok (), m.rebind h.val i.val)
  | _, _ => (.error "MissingParameter", m)

/-- The provider call DisassociateAddress: the association of that name is
removed; a name no association has is an error. -/
def Model.disassociateAddress (params : DisassociateAddressInput) (m : Model) :
    Except String Unit × Model :=
  match params.AssociationID with
  | none => (.error "MissingParameter", m)
  | some aid =>
    if m.addresses.any (fun a => a.boundTo.isSome && assocName a.alloc == aid.val) then
      (.ok (), { m with addresses := m.addresses.map (fun a =>
          if assocName a.alloc == aid.val then { a with boundTo := none } else a) })
    else (.error "InvalidAssociationID.NotFound", m)

/-- The modelled services. -/
def model : Services Model where
  kvList := Model.kvList
  kvGet := Model.kvGet
  lockKey := Model.lockKey
  lockLock := Model.lockLock
  randPerm := Model.randPerm
  describeAddresses := Model.describeAddresses
  associateAddress := Model.associateAddress
  disassociateAddress := Model.disassociateAddress

/-! ## Requests, histories and example states used in the statements -/

/-- The request `isAssociated` sends from the state `w`. -/
def describeParams (w : World σ) : DescribeAddressesInput :=
  ⟨[some ⟨w.next, w.mgr.allocationID⟩]⟩

/-- The state right after the DescribeAddresses call of `isAssociated`, before
the response is decoded. -/
def afterDescribe (sv : Services σ) (w : World σ) : World σ :=
  { env := (sv.describeAddresses (describeParams w) w.env).2
    mgr := w.mgr
    next := w.next + 1
    trace := w.trace ++
      [.describeAddresses (describeParams w) (sv.describeAddresses (describeParams w) w.env).1] }

/-- The request `associate` sends from the state `w`. -/
def associateParams (w : World σ) : AssociateAddressInput :=
  { AllocationID := some ⟨w.next, w.mgr.allocationID⟩
    AllowReassociation := some ⟨w.next + 1, true⟩
    InstanceID := some ⟨w.next + 2, w.mgr.metadata.InstanceID⟩ }

/-- The request `disaccociate` sends from the state `w`. -/
def disassociateParams (w : World σ) : DisassociateAddressInput :=
  { AssociationID := some ⟨w.next, w.mgr.allocationID⟩ }

/-- An instance identity document for the instance `i`. -/
def identity (i : String) : ec2MetaData :=
  { PrivateIP := "10.0.0.1", AvailabilityZone := "us-east-1a", InstanceID := i,
    Region := "us-east-1" }

/-- The process of instance `i` holding the allocation `alloc`, over the
services in state `m`, before any call. -/
def worldOf (m : Model) (i alloc : String) : World Model :=
  { env := m
    mgr := { metadata := identity i, allocationID := alloc, environment := "", role := "",
             lock := none }
    next := 0
    trace := [] }

/-- A provider that knows `eipalloc-1`, bound to the instance `i-A`. -/
def boundToA : Model :=
  { kv := [], tape := [], addresses := [⟨"eipalloc-1", some "i-A"⟩] }

/-- A provider that knows no allocation. -/
def emptyProvider : Model :=
  { kv := [], tape := [], addresses := [] }

/-- A provider that knows `eipalloc-1`, bound to the instance `i-B`. -/
def boundToB : Model :=
  { kv := [], tape := [], addresses := [⟨"eipalloc-1", some "i-B"⟩] }

/-- A check of a history: every construction and every acquisition of a lock
on a key comes after a read of that same key that showed no session, with no
other read and no other call than a lock construction in between.  The first
argument is the key the last read showed free, if any. -/
def guardedFrom : Option String → List Event → Bool
  | _, [] => true
  | _, .kvGet key pair _ :: rest => guardedFrom (if readFree pair then some key else none) rest
  | st, .lockKey key _ :: rest => (st == some key) && guardedFrom st rest
  | st, .lockLock l _ :: rest => (st == some l.key) && guardedFrom st rest
  | _, .kvList _ _ :: rest => guardedFrom none rest
  | _, .randPerm _ _ :: rest => guardedFrom none rest
  | _, .sleep _ :: rest => guardedFrom none rest
  | _, .describeAddresses _ _ :: rest => guardedFrom none rest
  | _, .associateAddress _ _ :: rest => guardedFrom none rest
  | _, .disassociateAddress _ _ :: rest => guardedFrom none rest

/-- The three calls of one round of the inner loop on the key `key`. -/
def roundCalls (sv : Services σ) (key : String) (env : σ) : List Event :=
  [.kvGet key (sv.kvGet key env).1.1 (sv.kvGet key env).1.2,
   .lockKey key (sv.lockKey key (sv.kvGet key env).2).1,
   .lockLock ⟨key⟩ (sv.lockLock ⟨key⟩ (sv.lockKey key (sv.kvGet key env).2).2).1]

/-- The inner loop as a walk over the keys still to visit. -/
def visitList (sv : Services σ) : List KVPair → World σ → Outcome Flow × World σ
  | [], w => (.ok .goOn, w)
  | k :: rest, w =>
    if (visitKey sv k w).1 = .ok .goOn then visitList sv rest (visitKey sv k w).2
    else visitKey sv k w

/-- The store after the lock on `key` is taken. -/
def Model.locked (m : Model) (key : String) : Model :=
  (Model.lockLock ⟨key⟩ m).2

/-- The read of the lock entry of `k` in the store `m`. -/
def readOf (m : Model) (k : KVPair) : Event :=
  .kvGet ("lock/" ++ k.Key) (m.lookup ("lock/" ++ k.Key)) none

/-- The listing of the keys under `pfx` in the store `m`. -/
def listing (pfx : String) (m : Model) : List KVPair :=
  m.kv.filter (fun p => hasPrefix pfx p.Key)

/-- Two slots under `slot/`, both unlocked; `rand.Perm` is going to draw the
permutation `[1, 0]`. -/
def twoSlots : Model :=
  { kv := [⟨"slot/a", "handle-1", ""⟩, ⟨"slot/b", "handle-2", ""⟩]
    tape := [[1, 0]]
    addresses := [] }

/-- The same two slots; `rand.Perm` is going to draw the permutation `[0, 1]`. -/
def twoSlotsId : Model :=
  { twoSlots with tape := [[0, 1]] }

/-- The modelled services, on which every read of a key fails. -/
def readFails : Services Model :=
  { model with kvGet := fun _ m => ((none, some "connection refused"), m) }

/-- One slot under `slot/`, unlocked. -/
def oneSlot : Model :=
  { kv := [⟨"slot/a", "handle-1", ""⟩], tape := [], addresses := [] }

/-- The store the round of instance `i-X` over `twoSlots` leaves. -/
def afterX : Model :=
  (aquiredLockPass model "slot/" (worldOf twoSlots "i-X" "")).2.env

/-- A store in which `slot/a` is locked by a session and `slot/b` is not. -/
def heldA : Model :=
  { kv := [⟨"slot/a", "handle-1", ""⟩, ⟨"slot/b", "handle-2", ""⟩,
      ⟨"lock/slot/a", "", "session:lock/slot/a"⟩]
    tape := []
    addresses := [] }

/-! ## Facts about the address binder -/

theorem decodeStr_frame (v : Option String) (w : World σ) :
    (decodeStr v w).2 = { w with next := (decodeStr v w).2.next } := by
  cases v <;> simp [decodeStr, awsString]

theorem decodeStr_fresh (v : Option String) (w : World σ) :
    w.next ≤ (decodeStr v w).2.next ∧
      ∀ c, (decodeStr v w).1 = some c → c.addr < (decodeStr v w).2.next := by
  cases v with
  | none => simp [decodeStr]
  | some s =>
    refine ⟨by simp [decodeStr, awsString], ?_⟩
    intro c hc
    simp only [decodeStr, awsString, Option.some.injEq] at hc
    subst hc
    simp [decodeStr, awsString]

theorem decodeAddress_frame (a : AddressData) (w : World σ) :
    (decodeAddress a w).2 = { w with next := (decodeAddress a w).2.next } := by
  simp only [decodeAddress]
  rw [decodeStr_frame a.InstanceID, decodeStr_frame a.AssociationID,
    decodeStr_frame a.AllocationID]

theorem decodeAddress_fresh (a : AddressData) (w : World σ) :
    w.next ≤ (decodeAddress a w).2.next ∧
      ∀ c, (decodeAddress a w).1.AssociationID = some c →
        c.addr < (decodeAddress a w).2.next := by
  simp only [decodeAddress]
  have h1 := decodeStr_fresh a.AllocationID w
  have h2 := decodeStr_fresh a.AssociationID (decodeStr a.AllocationID w).2
  have h3 := decodeStr_fresh a.InstanceID
    (decodeStr a.AssociationID (decodeStr a.AllocationID w).2).2
  refine ⟨by omega, ?_⟩
  intro c hc
  have := h2.2 c hc
  omega

theorem decodeAddresses_frame (l : List AddressData) (w : World σ) :
    (decodeAddresses l w).2 = { w with next := (decodeAddresses l w).2.next } := by
  induction l generalizing w with
  | nil => simp [decodeAddresses]
  | cons a rest ih =>
    simp only [decodeAddresses]
    rw [ih, decodeAddress_frame a w]

theorem decodeAddresses_mono (l : List AddressData) (w : World σ) :
    w.next ≤ (decodeAddresses l w).2.next := by
  induction l generalizing w with
  | nil => simp [decodeAddresses]
  | cons a rest ih =>
    simp only [decodeAddresses]
    have h1 := (decodeAddress_fresh a w).1
    have h2 := ih (decodeAddress a w).2
    omega

/-- The first record of a decoded response: its `AssociationID`, when not nil,
points below the allocation counter. -/
theorem decodeAddresses_head_fresh (a : AddressData) (rest : List AddressData)
    (w : World σ) :
    ∃ x xs, (decodeAddresses (a :: rest) w).1 = x :: xs ∧
      ∀ c, x.AssociationID = some c → c.addr < (decodeAddresses (a :: rest) w).2.next := by
  refine ⟨(decodeAddress a w).1, (decodeAddresses rest (decodeAddress a w).2).1, rfl, ?_⟩
  intro c hc
  have h1 := (decodeAddress_fresh a w).2 c hc
  have h2 := decodeAddresses_mono rest (decodeAddress a w).2
  simp only [decodeAddresses]
  omega

/-- A pointer below the allocation counter differs from the next pointer
allocated. -/
theorem ptrNe_fresh (p : Option StrCell) (n : Nat) (s : String)
    (h : ∀ c, p = some c → c.addr < n) : ptrNe p (some ⟨n, s⟩) = true := by
  cases p with
  | none => simp [ptrNe]
  | some c =>
    have := h c rfl
    simp only [ptrNe, Option.map_some', bne_iff_ne, ne_eq, Option.some.injEq]
    omega

theorem isAssociated_of_error (sv : Services σ) (w : World σ) (err : String)
    (h : (sv.describeAddresses (describeParams w) w.env).1 = .error err) :
    isAssociated sv w = (.panic err, afterDescribe sv w) := by
  simp only [describeParams] at h
  simp [isAssociated, svcDescribeAddresses, awsString, record, h, afterDescribe,
    describeParams]

theorem isAssociated_of_empty (sv : Services σ) (w : World σ)
    (h : (sv.describeAddresses (describeParams w) w.env).1 = .ok []) :
    isAssociated sv w =
      (.panic ("Could not find EIP with AllocationID " ++ w.mgr.allocationID),
        afterDescribe sv w) := by
  simp only [describeParams] at h
  simp [isAssociated, svcDescribeAddresses, awsString, record, h, afterDescribe,
    describeParams, decodeAddresses]

theorem isAssociated_of_records (sv : Services σ) (w : World σ) (r : AddressData)
    (rs : List AddressData)
    (h : (sv.describeAddresses (describeParams w) w.env).1 = .ok (r :: rs)) :
    ∃ n, isAssociated sv w = (.ok false, { afterDescribe sv w with next := n }) := by
  simp only [describeParams] at h
  obtain ⟨x, xs, hx, hfresh⟩ := decodeAddresses_head_fresh r rs (afterDescribe sv w)
  have hframe := decodeAddresses_frame (r :: rs) (afterDescribe sv w)
  refine ⟨(decodeAddresses (r :: rs) (afterDescribe sv w)).2.next + 1, ?_⟩
  have hw : record (.describeAddresses ⟨[some ⟨w.next, w.mgr.allocationID⟩]⟩ (.ok (r :: rs)))
      { env := (sv.describeAddresses ⟨[some ⟨w.next, w.mgr.allocationID⟩]⟩ w.env).2,
        mgr := w.mgr, next := w.next + 1, trace := w.trace } = afterDescribe sv w := by
    simp [record, afterDescribe, describeParams, h]
  simp only [isAssociated, svcDescribeAddresses, awsString, h, hw, hx]
  rw [ptrNe_fresh _ _ _ hfresh]
  simp only [if_true]
  rw [hframe]

/-- The method `isAssociated` never answers `true`. -/
theorem isAssociated_ne_true (sv : Services σ) (w : World σ) :
    (isAssociated sv w).1 ≠ .ok true := by
  rcases hd : (sv.describeAddresses (describeParams w) w.env).1 with err | recs
  · rw [isAssociated_of_error sv w err hd]; simp
  · cases recs with
    | nil => rw [isAssociated_of_empty sv w hd]; simp
    | cons r rs =>
      obtain ⟨n, hn⟩ := isAssociated_of_records sv w r rs hd
      rw [hn]; simp

theorem associate_world (sv : Services σ) (w : World σ) :
    (associate sv w).2 =
      { env := (sv.associateAddress (associateParams w) w.env).2
        mgr := w.mgr
        next := w.next + 3
        trace := w.trace ++ [.associateAddress (associateParams w)
          (sv.associateAddress (associateParams w) w.env).1] } := by
  simp only [associate, svcAssociateAddress, awsString, awsBoolean, record, associateParams]
  split <;> rename_i heq <;> simp only [Prod.mk.injEq] at heq <;> rw [← heq.2]

theorem associate_outcome (sv : Services σ) (w : World σ) :
    (associate sv w).1 =
      match (sv.associateAddress (associateParams w) w.env).1 with
      | .error err => .panic err
      | .ok _ => .ok () := by
  simp only [associate, svcAssociateAddress, awsString, awsBoolean, record, associateParams]
  split <;> rename_i heq <;> simp only [Prod.mk.injEq] at heq <;> rw [heq.1]

theorem disaccociate_eq (sv : Services σ) (w : World σ) :
    disaccociate sv w =
      (.ok (),
        { env := (sv.disassociateAddress (disassociateParams w) w.env).2
          mgr := w.mgr
          next := w.next + 1
          trace := w.trace ++ [.disassociateAddress (disassociateParams w)
            (sv.disassociateAddress (disassociateParams w) w.env).1] }) := by
  simp only [disaccociate, svcDisassociateAddress, awsString, record, disassociateParams]
  split <;> rename_i heq <;> simp only [Prod.mk.injEq] at heq <;> rw [← heq.2]

theorem binding_map_bindIf (l : List AddrEntry) (alloc inst : String) :
    (l.map (AddrEntry.bindIf alloc inst)).find? (fun a => a.alloc == alloc) =
      (l.find? (fun a => a.alloc == alloc)).map (fun a => { a with boundTo := some inst }) := by
  induction l with
  | nil => simp
  | cons a rest ih =>
    by_cases h : a.alloc = alloc
    · simp [List.find?, AddrEntry.bindIf, h]
    · have hb : (a.alloc == alloc) = false := by simpa using h
      simp [List.find?, AddrEntry.bindIf, h, hb, ih]

theorem map_bindIf_idem (l : List AddrEntry) (alloc inst : String) :
    (l.map (AddrEntry.bindIf alloc inst)).map (AddrEntry.bindIf alloc inst) =
      l.map (AddrEntry.bindIf alloc inst) := by
  rw [List.map_map]
  apply List.map_congr_left
  intro a _
  by_cases h : a.alloc = alloc <;> simp [AddrEntry.bindIf, h]

/-- A known allocation has a record in the answer to the request of
`isAssociated`. -/
theorem model_describe_known (w : World Model) (b : Option String)
    (h : w.env.binding w.mgr.allocationID = some b) :
    ∃ r rs, (model.describeAddresses (describeParams w) w.env).1 = .ok (r :: rs) ∧
      (model.describeAddresses (describeParams w) w.env).2 = w.env := by
  simp only [Model.binding, Option.map_eq_some'] at h
  obtain ⟨a, ha, _⟩ := h
  have hmem := List.mem_of_find?_eq_some ha
  have hp := List.find?_some ha
  have hin : a ∈ w.env.addresses.filter (fun a => [w.mgr.allocationID].contains a.alloc) := by
    simp only [List.mem_filter, hmem, true_and]
    simpa using hp
  cases hf : w.env.addresses.filter (fun a => [w.mgr.allocationID].contains a.alloc) with
  | nil => rw [hf] at hin; simp at hin
  | cons x xs =>
    refine ⟨addressData x, xs.map addressData, ?_, rfl⟩
    have hd : (model.describeAddresses (describeParams w) w.env).1 =
        .ok ((w.env.addresses.filter
          (fun a => [w.mgr.allocationID].contains a.alloc)).map addressData) := rfl
    rw [hd, hf]
    rfl

/-- On the model, the end of `main` for a known allocation: the answer of
`isAssociated` is `false`, no disassociation is asked, and the association
goes through. -/
theorem reconcile_model_known (w : World Model) (b : Option String)
    (h : w.env.binding w.mgr.allocationID = some b) :
    ∃ n res, reconcile model w =
      (.ok (),
        { env := w.env.rebind w.mgr.allocationID w.mgr.metadata.InstanceID
          mgr := w.mgr
          next := n + 3
          trace := w.trace ++ [.describeAddresses (describeParams w) res,
            .associateAddress
              { AllocationID := some ⟨n, w.mgr.allocationID⟩
                AllowReassociation := some ⟨n + 1, true⟩
                InstanceID := some ⟨n + 2, w.mgr.metadata.InstanceID⟩ } (.ok ())] }) := by
  obtain ⟨r, rs, hd, henv⟩ := model_describe_known w b h
  obtain ⟨n, hn⟩ := isAssociated_of_records model w r rs hd
  refine ⟨n, (model.describeAddresses (describeParams w) w.env).1, ?_⟩
  have hassoc : model.associateAddress
      { AllocationID := some ⟨n, w.mgr.allocationID⟩
        AllowReassociation := some ⟨n + 1, true⟩
        InstanceID := some ⟨n + 2, w.mgr.metadata.InstanceID⟩ } w.env =
      (.ok (), w.env.rebind w.mgr.allocationID w.mgr.metadata.InstanceID) := by
    simp [model, Model.associateAddress, h]
  apply Prod.ext
  · simp only [reconcile, hn, mainAfterCheck, Bool.false_eq_true, ↓reduceIte]
    rw [associate_outcome]
    simp [associateParams, afterDescribe, henv, hassoc]
  · simp only [reconcile, hn, mainAfterCheck, Bool.false_eq_true, ↓reduceIte]
    rw [associate_world]
    simp [associateParams, afterDescribe, henv, hassoc]

/-! ## The claims on the address binder -/

/-- C2 (the code departs from it): for the allocation `eipalloc-1`, which the
provider reports with the non-empty association identifier
`eipassoc:eipalloc-1`, `isAssociated` returns `false`. -/
theorem isAssociated_false_on_associated_address :
    (model.describeAddresses (describeParams (worldOf boundToA "i-B" "eipalloc-1"))
        boundToA).1 =
      .ok [⟨some "eipalloc-1", some "eipassoc:eipalloc-1", some "i-A"⟩] ∧
    (isAssociated model (worldOf boundToA "i-B" "eipalloc-1")).1 = .ok false := by
  constructor <;> rfl

/-- C3: when DescribeAddresses succeeds with an empty address list,
`isAssociated` panics with the message naming the allocation, and the end of
`main` panics with it having made the DescribeAddresses call only: neither a
DisassociateAddress nor an AssociateAddress request is issued. -/
theorem isAssociated_aborts_on_unknown_handle (sv : Services σ) (w : World σ)
    (h : (sv.describeAddresses (describeParams w) w.env).1 = .ok []) :
    (isAssociated sv w).1 =
      .panic ("Could not find EIP with AllocationID " ++ w.mgr.allocationID) ∧
    (reconcile sv w).1 =
      .panic ("Could not find EIP with AllocationID " ++ w.mgr.allocationID) ∧
    (reconcile sv w).2.trace =
      w.trace ++ [.describeAddresses (describeParams w) (.ok [])] := by
  have hi := isAssociated_of_empty sv w h
  refine ⟨by rw [hi], ?_, ?_⟩
  · simp only [reconcile, hi]
  · simp only [reconcile, hi, afterDescribe, h]

theorem isAssociated_aborts_on_unknown_handle_witness :
    (model.describeAddresses (describeParams (worldOf emptyProvider "i-B" "eipalloc-9"))
        emptyProvider).1 = .ok [] ∧
    ((isAssociated model (worldOf emptyProvider "i-B" "eipalloc-9")).1 =
        .panic ("Could not find EIP with AllocationID " ++ "eipalloc-9") ∧
      (reconcile model (worldOf emptyProvider "i-B" "eipalloc-9")).1 =
        .panic ("Could not find EIP with AllocationID " ++ "eipalloc-9") ∧
      (reconcile model (worldOf emptyProvider "i-B" "eipalloc-9")).2.trace =
        [] ++ [.describeAddresses (describeParams (worldOf emptyProvider "i-B" "eipalloc-9"))
          (.ok [])]) :=
  ⟨rfl, isAssociated_aborts_on_unknown_handle model
    (worldOf emptyProvider "i-B" "eipalloc-9") rfl⟩

/-- C4: on the modelled provider, when the allocation of the manager is bound
to an instance `A` other than the instance of the manager, the end of `main`
(`isAssociated`, the conditional `disaccociate`, `associate`) returns, leaves
the allocation bound to the instance of the manager and not to `A`, and its
last request is an AssociateAddress carrying that allocation, that instance
and `AllowReassociation = true`. -/
theorem override_binds_handle_to_self (w : World Model) (A : String)
    (hA : w.env.binding w.mgr.allocationID = some (some A))
    (hB : w.mgr.metadata.InstanceID ≠ A) :
    (reconcile model w).1 = .ok () ∧
    (reconcile model w).2.env.binding w.mgr.allocationID =
      some (some w.mgr.metadata.InstanceID) ∧
    (reconcile model w).2.env.binding w.mgr.allocationID ≠ some (some A) ∧
    ∃ n res, (reconcile model w).2.trace =
      w.trace ++ [.describeAddresses (describeParams w) res,
        .associateAddress
          { AllocationID := some ⟨n, w.mgr.allocationID⟩
            AllowReassociation := some ⟨n + 1, true⟩
            InstanceID := some ⟨n + 2, w.mgr.metadata.InstanceID⟩ } (.ok ())] := by
  obtain ⟨n, res, hr⟩ := reconcile_model_known w (some A) hA
  have hbind : (reconcile model w).2.env.binding w.mgr.allocationID =
      some (some w.mgr.metadata.InstanceID) := by
    simp only [Model.binding] at hA ⊢
    rw [hr]
    simp only [Model.rebind, binding_map_bindIf]
    cases hf : List.find? (fun a => a.alloc == w.mgr.allocationID) w.env.addresses with
    | none => rw [hf] at hA; simp at hA
    | some a => simp
  refine ⟨by rw [hr], hbind, ?_, n, res, by rw [hr]⟩
  rw [hbind]
  intro hcontra
  simp only [Option.some.injEq] at hcontra
  exact hB hcontra

theorem override_binds_handle_to_self_witness :
    (reconcile model (worldOf boundToA "i-B" "eipalloc-1")).1 = .ok () ∧
    (reconcile model (worldOf boundToA "i-B" "eipalloc-1")).2.env.binding "eipalloc-1" =
      some (some "i-B") ∧
    (reconcile model (worldOf boundToA "i-B" "eipalloc-1")).2.env.binding "eipalloc-1" ≠
      some (some "i-A") ∧
    ∃ n res, (reconcile model (worldOf boundToA "i-B" "eipalloc-1")).2.trace =
      [] ++ [.describeAddresses (describeParams (worldOf boundToA "i-B" "eipalloc-1")) res,
        .associateAddress
          { AllocationID := some ⟨n, "eipalloc-1"⟩
            AllowReassociation := some ⟨n + 1, true⟩
            InstanceID := some ⟨n + 2, "i-B"⟩ } (.ok ())] :=
  override_binds_handle_to_self (worldOf boundToA "i-B" "eipalloc-1") "i-A" rfl (by decide)

/-- C5: on the modelled provider, when the allocation of the manager is known
and already bound to the instance of the manager, the end of `main` returns,
and run again right after it returns again, leaves the state of the services
equal to the state after the first run, and leaves the allocation bound to the
instance of the manager. -/
theorem rebinding_twice_same_state (w : World Model)
    (h : w.env.binding w.mgr.allocationID = some (some w.mgr.metadata.InstanceID)) :
    (reconcile model w).1 = .ok () ∧
    (reconcile model (reconcile model w).2).1 = .ok () ∧
    (reconcile model (reconcile model w).2).2.env = (reconcile model w).2.env ∧
    (reconcile model (reconcile model w).2).2.env.binding w.mgr.allocationID =
      some (some w.mgr.metadata.InstanceID) := by
  obtain ⟨n, res, hr⟩ := reconcile_model_known w _ h
  have hb1 : (reconcile model w).2.env.binding (reconcile model w).2.mgr.allocationID =
      some (some w.mgr.metadata.InstanceID) := by
    simp only [Model.binding] at h ⊢
    rw [hr]
    simp only [Model.rebind, binding_map_bindIf]
    cases hf : List.find? (fun a => a.alloc == w.mgr.allocationID) w.env.addresses with
    | none => rw [hf] at h; simp at h
    | some a => simp
  obtain ⟨n2, res2, hr2⟩ := reconcile_model_known (reconcile model w).2 _ hb1
  have henv : (reconcile model (reconcile model w).2).2.env = (reconcile model w).2.env := by
    rw [hr2]
    rw [hr]
    simp only [Model.rebind, map_bindIf_idem]
  refine ⟨by rw [hr], by rw [hr2], henv, ?_⟩
  rw [henv]
  have hm : (reconcile model w).2.mgr = w.mgr := by rw [hr]
  rw [hm] at hb1
  exact hb1

theorem rebinding_twice_same_state_witness :
    (reconcile model (worldOf boundToB "i-B" "eipalloc-1")).1 = .ok () ∧
    (reconcile model (reconcile model (worldOf boundToB "i-B" "eipalloc-1")).2).1 = .ok () ∧
    (reconcile model (reconcile model (worldOf boundToB "i-B" "eipalloc-1")).2).2.env =
      (reconcile model (worldOf boundToB "i-B" "eipalloc-1")).2.env ∧
    (reconcile model (reconcile model (worldOf boundToB "i-B" "eipalloc-1")).2).2.env.binding
      "eipalloc-1" = some (some "i-B") :=
  rebinding_twice_same_state (worldOf boundToB "i-B" "eipalloc-1") rfl

/-- C8: whatever the provider answers to DisassociateAddress, an error
included, `disaccociate` returns normally and leaves every field of the
manager as it was; and `main`, once `isAssociated` has answered `true`, makes
the DisassociateAddress request and then, whatever its outcome, the
AssociateAddress request of `associate`. -/
theorem disaccociate_returns_on_every_outcome (sv : Services σ) (w : World σ) :
    (disaccociate sv w).1 = .ok () ∧
    (disaccociate sv w).2.mgr = w.mgr ∧
    mainAfterCheck sv true w = associate sv (disaccociate sv w).2 ∧
    (mainAfterCheck sv true w).2.trace =
      w.trace ++
        [.disassociateAddress (disassociateParams w)
            (sv.disassociateAddress (disassociateParams w) w.env).1,
          .associateAddress (associateParams (disaccociate sv w).2)
            (sv.associateAddress (associateParams (disaccociate sv w).2)
              (disaccociate sv w).2.env).1] := by
  have hm : mainAfterCheck sv true w = associate sv (disaccociate sv w).2 := by
    simp only [mainAfterCheck, ↓reduceIte]
    rw [disaccociate_eq]
  refine ⟨by rw [disaccociate_eq], by rw [disaccociate_eq], hm, ?_⟩
  rw [hm, associate_world]
  simp [disaccociate_eq]

/-- C10 (the code departs from it): for the allocation `eipalloc-1`, which the
provider reports as associated under the identifier `eipassoc:eipalloc-1`,
the request of `disaccociate` carries the allocation handle `eipalloc-1` as
its association identifier; the provider finds no such association and the
allocation stays bound. -/
theorem disaccociate_sends_allocation_handle :
    (model.describeAddresses (describeParams (worldOf boundToA "i-B" "eipalloc-1"))
        boundToA).1 =
      .ok [⟨some "eipalloc-1", some "eipassoc:eipalloc-1", some "i-A"⟩] ∧
    (disaccociate model (worldOf boundToA "i-B" "eipalloc-1")).2.trace =
      [.disassociateAddress { AssociationID := some ⟨0, "eipalloc-1"⟩ }
        (.error "InvalidAssociationID.NotFound")] ∧
    (disaccociate model (worldOf boundToA "i-B" "eipalloc-1")).2.env.binding "eipalloc-1" =
      some (some "i-A") := by
  refine ⟨rfl, rfl, rfl⟩

/-! ## Facts about the slot selector -/

theorem guardedFrom_append (a b : List Event) (st : Option String)
    (ha : guardedFrom st a = true) (hb : ∀ st1, guardedFrom st1 b = true) :
    guardedFrom st (a ++ b) = true := by
  induction a generalizing st with
  | nil => simpa using hb st
  | cons ev rest ih =>
    cases ev <;> simp only [List.cons_append, guardedFrom, Bool.and_eq_true] at ha ⊢
    all_goals first
      | exact ih _ ha
      | exact ⟨ha.1, ih _ ha.2⟩

/-- What one round of the inner loop does, by the answers of the services. -/
theorem visit_cases (sv : Services σ) (keys : List KVPair) (i : Nat) (w : World σ) :
    (keys[i]? = none ∧ visit sv keys i w = (.panic "index out of range", w)) ∨
    ∃ k, keys[i]? = some k ∧
      ((readFree (sv.kvGet ("lock/" ++ k.Key) w.env).1.1 = false ∧
          (visit sv keys i w).1 = .ok .goOn ∧
          (visit sv keys i w).2.mgr = w.mgr ∧
          (visit sv keys i w).2.trace =
            w.trace ++ (roundCalls sv ("lock/" ++ k.Key) w.env).take 1) ∨
        (readFree (sv.kvGet ("lock/" ++ k.Key) w.env).1.1 = true ∧
          (∃ err, (visit sv keys i w).1 = .panic err) ∧
          (visit sv keys i w).2.trace =
            w.trace ++ (roundCalls sv ("lock/" ++ k.Key) w.env).take 2) ∨
        (readFree (sv.kvGet ("lock/" ++ k.Key) w.env).1.1 = true ∧
          (sv.lockKey ("lock/" ++ k.Key) (sv.kvGet ("lock/" ++ k.Key) w.env).2).1 = .ok () ∧
          ((visit sv keys i w).1 = .blocked ∨ ∃ err, (visit sv keys i w).1 = .panic err) ∧
          (visit sv keys i w).2.trace =
            w.trace ++ roundCalls sv ("lock/" ++ k.Key) w.env) ∨
        (readFree (sv.kvGet ("lock/" ++ k.Key) w.env).1.1 = true ∧
          (sv.lockKey ("lock/" ++ k.Key) (sv.kvGet ("lock/" ++ k.Key) w.env).2).1 = .ok () ∧
          (sv.lockLock ⟨"lock/" ++ k.Key⟩
            (sv.lockKey ("lock/" ++ k.Key) (sv.kvGet ("lock/" ++ k.Key) w.env).2).2).1 =
              .acquired ∧
          (visit sv keys i w).1 = .ok .returned ∧
          (visit sv keys i w).2.mgr =
            { w.mgr with lock := some ⟨"lock/" ++ k.Key⟩, allocationID := k.Value } ∧
          (visit sv keys i w).2.trace =
            w.trace ++ roundCalls sv ("lock/" ++ k.Key) w.env)) := by
  cases hk : keys[i]? with
  | none => left; simp [visit, hk]
  | some k =>
    right
    refine ⟨k, rfl, ?_⟩
    cases hr : readFree (sv.kvGet ("lock/" ++ k.Key) w.env).1.1 with
    | false =>
      left
      simp [visit, visitKey, hk, kvGet, record, hr, roundCalls]
    | true =>
      right
      rcases hl : (sv.lockKey ("lock/" ++ k.Key) (sv.kvGet ("lock/" ++ k.Key) w.env).2).1
        with err | u
      · left
        simp [visit, visitKey, hk, kvGet, clientLockKey, record, hr, hl, roundCalls]
      · right
        cases hL : (sv.lockLock ⟨"lock/" ++ k.Key⟩
            (sv.lockKey ("lock/" ++ k.Key) (sv.kvGet ("lock/" ++ k.Key) w.env).2).2).1 with
        | acquired =>
          right
          simp [visit, visitKey, hk, kvGet, clientLockKey, lockLock, record, hr, hl, hL, roundCalls]
        | failed err =>
          left
          simp [visit, visitKey, hk, kvGet, clientLockKey, lockLock, record, hr, hl, hL, roundCalls]
        | waits =>
          left
          simp [visit, visitKey, hk, kvGet, clientLockKey, lockLock, record, hr, hl, hL, roundCalls]

/-- The calls one round of the inner loop adds to the history pass the check of
`guardedFrom`, whatever was read before. -/
theorem visit_guarded (sv : Services σ) (keys : List KVPair) (i : Nat) (w : World σ) :
    ∃ seg, (visit sv keys i w).2.trace = w.trace ++ seg ∧
      ∀ st, guardedFrom st seg = true := by
  rcases visit_cases sv keys i w with ⟨_, h⟩ | ⟨k, _, h | h | h | h⟩
  · exact ⟨[], by rw [h]; simp, fun _ => rfl⟩
  · refine ⟨_, h.2.2.2, fun st => ?_⟩
    simp [roundCalls, guardedFrom, h.1]
  · refine ⟨_, h.2.2, fun st => ?_⟩
    simp [roundCalls, guardedFrom, h.1]
  · refine ⟨_, h.2.2.2, fun st => ?_⟩
    simp [roundCalls, guardedFrom, h.1]
  · refine ⟨_, h.2.2.2.2.2, fun st => ?_⟩
    simp [roundCalls, guardedFrom, h.1]

theorem visit_returned (sv : Services σ) (keys : List KVPair) (i : Nat) (w : World σ)
    (h : (visit sv keys i w).1 = .ok .returned) :
    ∃ k, k ∈ keys ∧ (∃ pre pair err,
        ((visit sv keys i w).2).trace = pre ++
          [.kvGet ("lock/" ++ k.Key) pair err, .lockKey ("lock/" ++ k.Key) (.ok ()),
            .lockLock ⟨"lock/" ++ k.Key⟩ .acquired] ∧
        readFree pair = true ∧
        ((visit sv keys i w).2).mgr.lock = some ⟨"lock/" ++ k.Key⟩ ∧
        ((visit sv keys i w).2).mgr.allocationID = k.Value) := by
  rcases visit_cases sv keys i w with ⟨_, hv⟩ | ⟨k, hk, hv | hv | hv | hv⟩
  · rw [hv] at h; simp at h
  · rw [hv.2.1] at h; simp at h
  · obtain ⟨err, he⟩ := hv.2.1
    rw [he] at h; simp at h
  · rcases hv.2.2.1 with hb | ⟨err, he⟩
    · rw [hb] at h; simp at h
    · rw [he] at h; simp at h
  · refine ⟨k, List.getElem?_mem hk, w.trace,
      (sv.kvGet ("lock/" ++ k.Key) w.env).1.1, (sv.kvGet ("lock/" ++ k.Key) w.env).1.2,
      ?_, hv.1, ?_, ?_⟩
    · rw [hv.2.2.2.2.2]
      simp [roundCalls, hv.2.1, hv.2.2.1]
    · rw [hv.2.2.2.2.1]
    · rw [hv.2.2.2.2.1]

theorem visitAll_cons (sv : Services σ) (keys : List KVPair) (i : Nat) (is : List Nat)
    (w : World σ) :
    visitAll sv keys (i :: is) w =
      if (visit sv keys i w).1 = .ok .goOn then visitAll sv keys is (visit sv keys i w).2
      else visit sv keys i w := by
  rw [visitAll]
  split
  · rename_i w1 heq
    simp [heq]
  · rename_i r hne
    split
    · rename_i hgo
      exact absurd
        (Prod.ext hgo rfl : visit sv keys i w = (.ok .goOn, (visit sv keys i w).2)) (hne _)
    · rfl

theorem visitAll_guarded (sv : Services σ) (keys : List KVPair) (is : List Nat)
    (w : World σ) :
    ∃ seg, (visitAll sv keys is w).2.trace = w.trace ++ seg ∧
      ∀ st, guardedFrom st seg = true := by
  induction is generalizing w with
  | nil => exact ⟨[], by simp [visitAll], fun _ => rfl⟩
  | cons i is ih =>
    rw [visitAll_cons]
    obtain ⟨seg1, h1, g1⟩ := visit_guarded sv keys i w
    split
    · obtain ⟨seg2, h2, g2⟩ := ih (visit sv keys i w).2
      refine ⟨seg1 ++ seg2, by rw [h2, h1, List.append_assoc], fun st => ?_⟩
      exact guardedFrom_append _ _ _ (g1 st) g2
    · exact ⟨seg1, h1, g1⟩

theorem visitAll_returned (sv : Services σ) (keys : List KVPair) (is : List Nat)
    (w : World σ) (h : (visitAll sv keys is w).1 = .ok .returned) :
    ∃ k, k ∈ keys ∧ (∃ pre pair err,
        ((visitAll sv keys is w).2).trace = pre ++
          [.kvGet ("lock/" ++ k.Key) pair err, .lockKey ("lock/" ++ k.Key) (.ok ()),
            .lockLock ⟨"lock/" ++ k.Key⟩ .acquired] ∧
        readFree pair = true ∧
        ((visitAll sv keys is w).2).mgr.lock = some ⟨"lock/" ++ k.Key⟩ ∧
        ((visitAll sv keys is w).2).mgr.allocationID = k.Value) := by
  induction is generalizing w with
  | nil => simp [visitAll] at h
  | cons i is ih =>
    rw [visitAll_cons] at h ⊢
    split
    · rename_i hgo
      rw [if_pos hgo] at h
      exact ih _ h
    · rename_i hgo
      rw [if_neg hgo] at h
      exact visit_returned sv keys i w h

theorem aquiredLockPass_guarded (sv : Services σ) (pfx : String) (w : World σ) :
    ∃ seg, (aquiredLockPass sv pfx w).2.trace = w.trace ++ seg ∧
      ∀ st, guardedFrom st seg = true := by
  rcases hl : (sv.kvList pfx w.env).1 with err | keys
  · refine ⟨[.kvList pfx (.error err)], ?_, fun _ => rfl⟩
    simp [aquiredLockPass, kvList, record, hl]
  · obtain ⟨seg, hs, hg⟩ := visitAll_guarded sv keys
      (List.range (randPerm sv keys.length (kvList sv pfx w).2).1.length)
      (randPerm sv keys.length (kvList sv pfx w).2).2
    refine ⟨[.kvList pfx (.ok keys),
        .randPerm keys.length (sv.randPerm keys.length (sv.kvList pfx w.env).2).1] ++ seg,
      ?_, fun st => ?_⟩
    · have : aquiredLockPass sv pfx w = visitAll sv keys
          (List.range (randPerm sv keys.length (kvList sv pfx w).2).1.length)
          (randPerm sv keys.length (kvList sv pfx w).2).2 := by
        simp [aquiredLockPass, kvList, record, hl]
      rw [this, hs]
      simp [randPerm, kvList, record, hl]
    · simpa [guardedFrom] using hg none

theorem aquiredLockPass_returned (sv : Services σ) (pfx : String) (w : World σ)
    (h : (aquiredLockPass sv pfx w).1 = .ok .returned) :
    ∃ keys k, (sv.kvList pfx w.env).1 = .ok keys ∧ k ∈ keys ∧
      (∃ pre pair err,
        ((aquiredLockPass sv pfx w).2).trace = pre ++
          [.kvGet ("lock/" ++ k.Key) pair err, .lockKey ("lock/" ++ k.Key) (.ok ()),
            .lockLock ⟨"lock/" ++ k.Key⟩ .acquired] ∧
        readFree pair = true ∧
        ((aquiredLockPass sv pfx w).2).mgr.lock = some ⟨"lock/" ++ k.Key⟩ ∧
        ((aquiredLockPass sv pfx w).2).mgr.allocationID = k.Value) := by
  rcases hl : (sv.kvList pfx w.env).1 with err | keys
  · simp [aquiredLockPass, kvList, record, hl] at h
  · have hp : aquiredLockPass sv pfx w = visitAll sv keys
        (List.range (randPerm sv keys.length (kvList sv pfx w).2).1.length)
        (randPerm sv keys.length (kvList sv pfx w).2).2 := by
      simp [aquiredLockPass, kvList, record, hl]
    rw [hp] at h ⊢
    obtain ⟨k, hk, hw⟩ := visitAll_returned sv keys _ _ h
    exact ⟨keys, k, rfl, hk, hw⟩

theorem aquiredLock_succ (sv : Services σ) (pfx : String) (fuel : Nat) (w : World σ) :
    aquiredLock sv pfx (fuel + 1) w =
      match (aquiredLockPass sv pfx w).1 with
      | .ok .returned => (.ok (), (aquiredLockPass sv pfx w).2)
      | .ok .goOn => aquiredLock sv pfx fuel (record (.sleep 3) (aquiredLockPass sv pfx w).2)
      | .panic msg => (.panic msg, (aquiredLockPass sv pfx w).2)
      | .blocked => (.blocked, (aquiredLockPass sv pfx w).2)
      | .cut => (.cut, (aquiredLockPass sv pfx w).2) := by
  rw [aquiredLock]
  split <;> rename_i heq <;> simp [heq]

theorem aquiredLock_guarded (sv : Services σ) (pfx : String) (fuel : Nat) (w : World σ) :
    ∃ seg, (aquiredLock sv pfx fuel w).2.trace = w.trace ++ seg ∧
      ∀ st, guardedFrom st seg = true := by
  induction fuel generalizing w with
  | zero => exact ⟨[], by simp [aquiredLock], fun _ => rfl⟩
  | succ fuel ih =>
    obtain ⟨seg1, h1, g1⟩ := aquiredLockPass_guarded sv pfx w
    rw [aquiredLock_succ]
    split
    · exact ⟨seg1, h1, g1⟩
    · obtain ⟨seg2, h2, g2⟩ := ih (record (.sleep 3) (aquiredLockPass sv pfx w).2)
      refine ⟨seg1 ++ ([.sleep 3] ++ seg2), ?_, fun st => ?_⟩
      · rw [h2]
        simp [record, h1]
      · apply guardedFrom_append _ _ _ (g1 st)
        intro st1
        simpa [guardedFrom] using g2 none
    · exact ⟨seg1, h1, g1⟩
    · exact ⟨seg1, h1, g1⟩
    · exact ⟨seg1, h1, g1⟩

theorem aquiredLock_returned (sv : Services σ) (pfx : String) (fuel : Nat) (w : World σ)
    (h : (aquiredLock sv pfx fuel w).1 = .ok ()) :
    ∃ keys k, (∃ env, (sv.kvList pfx env).1 = .ok keys) ∧ k ∈ keys ∧
      (∃ pre pair err,
        ((aquiredLock sv pfx fuel w).2).trace = pre ++
          [.kvGet ("lock/" ++ k.Key) pair err, .lockKey ("lock/" ++ k.Key) (.ok ()),
            .lockLock ⟨"lock/" ++ k.Key⟩ .acquired] ∧
        readFree pair = true ∧
        ((aquiredLock sv pfx fuel w).2).mgr.lock = some ⟨"lock/" ++ k.Key⟩ ∧
        ((aquiredLock sv pfx fuel w).2).mgr.allocationID = k.Value) := by
  induction fuel generalizing w with
  | zero => simp [aquiredLock] at h
  | succ fuel ih =>
    rw [aquiredLock_succ] at h ⊢
    rcases hr : (aquiredLockPass sv pfx w).1 with f | msg | _ | _
    · cases f with
      | goOn =>
        simp only [hr] at h ⊢
        exact ih _ h
      | returned =>
        obtain ⟨keys, k, hl, hk, hw⟩ := aquiredLockPass_returned sv pfx w hr
        simp only [hr]
        exact ⟨keys, k, ⟨_, hl⟩, hk, hw⟩
    · simp [hr] at h
    · simp [hr] at h
    · simp [hr] at h

/-- The inner loop over the indices of a tail of the listing is the walk over
that tail. -/
theorem visitAll_range_tail (sv : Services σ) (pre suf : List KVPair) (w : World σ) :
    visitAll sv (pre ++ suf) (List.range' pre.length suf.length) w = visitList sv suf w := by
  induction suf generalizing pre w with
  | nil => simp [visitAll, visitList]
  | cons k rest ih =>
    have hk : (pre ++ k :: rest)[pre.length]? = some k := by
      rw [List.getElem?_append_right (Nat.le_refl _)]
      simp
    have hv : visit sv (pre ++ k :: rest) pre.length w = visitKey sv k w := by
      simp [visit, hk]
    have ih1 := ih (pre ++ [k])
    simp only [List.append_assoc, List.singleton_append, List.length_append,
      List.length_singleton] at ih1
    simp only [List.length_cons, List.range'_succ, visitAll_cons, hv, visitList, ih1]

/-- The inner loop visits the keys in the order of the listing, whatever the
permutation drawn: only the length of the permutation is used. -/
theorem visitAll_range (sv : Services σ) (keys : List KVPair) (p : List Nat) (w : World σ)
    (hp : p.length = keys.length) :
    visitAll sv keys (List.range p.length) w = visitList sv keys w := by
  have := visitAll_range_tail sv [] keys w
  simpa [hp, List.range_eq_range'] using this

theorem model_randPerm_length (n : Nat) (m : Model) : (model.randPerm n m).1.length = n := by
  simp only [model, Model.randPerm]
  split
  · simp
  · split
    · rename_i p rest _ hperm
      have := (List.isPerm_iff.mp hperm).length_eq
      simpa using this
    · simp

theorem model_randPerm_kv (n : Nat) (m : Model) : (model.randPerm n m).2.kv = m.kv := by
  simp only [model, Model.randPerm]
  split
  · rfl
  · split <;> rfl

theorem model_visitKey_held (k : KVPair) (w : World Model)
    (h : readFree (w.env.lookup ("lock/" ++ k.Key)) = false) :
    visitKey model k w = (.ok .goOn, { w with trace := w.trace ++ [readOf w.env k] }) := by
  simp [visitKey, kvGet, record, model, Model.kvGet, h, readOf]

theorem model_visitKey_free (k : KVPair) (w : World Model)
    (h : readFree (w.env.lookup ("lock/" ++ k.Key)) = true) :
    visitKey model k w =
      (.ok .returned,
        { env := w.env.locked ("lock/" ++ k.Key)
          mgr := { w.mgr with lock := some ⟨"lock/" ++ k.Key⟩, allocationID := k.Value }
          next := w.next
          trace := w.trace ++ [readOf w.env k, .lockKey ("lock/" ++ k.Key) (.ok ()),
            .lockLock ⟨"lock/" ++ k.Key⟩ .acquired] }) := by
  have hl : (Model.lockLock ⟨"lock/" ++ k.Key⟩ w.env).1 = .acquired := by
    simp only [Model.lockLock]
    cases hp : w.env.lookup ("lock/" ++ k.Key) with
    | none => rfl
    | some p =>
      rw [hp] at h
      simp only [readFree, beq_iff_eq] at h
      simp [h]
  simp [visitKey, kvGet, clientLockKey, lockLock, record, model, Model.kvGet, Model.lockKey,
    h, hl, readOf, Model.locked]

/-- On the model, the walk over the keys takes the first key whose lock entry
shows no session, after a read of each key before it. -/
theorem model_visitList_first_free (keys : List KVPair) (k : KVPair) (w : World Model)
    (hk : keys.find? (fun k => readFree (w.env.lookup ("lock/" ++ k.Key))) = some k) :
    visitList model keys w =
      (.ok .returned,
        { env := w.env.locked ("lock/" ++ k.Key)
          mgr := { w.mgr with lock := some ⟨"lock/" ++ k.Key⟩, allocationID := k.Value }
          next := w.next
          trace := w.trace ++
            ((keys.takeWhile (fun k => !readFree (w.env.lookup ("lock/" ++ k.Key)))).map
              (readOf w.env) ++
            [readOf w.env k, .lockKey ("lock/" ++ k.Key) (.ok ()),
              .lockLock ⟨"lock/" ++ k.Key⟩ .acquired]) }) := by
  induction keys generalizing w with
  | nil => simp at hk
  | cons x rest ih =>
    cases hx : readFree (w.env.lookup ("lock/" ++ x.Key)) with
    | true =>
      have hxk : x = k := by
        simpa [List.find?, hx] using hk
      subst hxk
      simp [visitList, model_visitKey_free x w hx, List.takeWhile, hx]
    | false =>
      have hrest : rest.find? (fun k => readFree (w.env.lookup ("lock/" ++ k.Key))) = some k := by
        simpa [List.find?, hx] using hk
      have := ih { w with trace := w.trace ++ [readOf w.env x] } hrest
      simp [visitList, model_visitKey_held x w hx, List.takeWhile, hx, this]

theorem lookup_of_kv_eq (m1 m2 : Model) (h : m1.kv = m2.kv) (key : String) :
    m1.lookup key = m2.lookup key := by
  simp [Model.lookup, h]

theorem readOf_of_kv_eq (m1 m2 : Model) (h : m1.kv = m2.kv) : readOf m1 = readOf m2 := by
  funext k
  simp [readOf, lookup_of_kv_eq m1 m2 h]

theorem find?_map_replace (l : List KVPair) (key : String) (new p : KVPair)
    (hnew : new.Key = key) (h : l.find? (fun q => q.Key == key) = some p) :
    (l.map (fun q => if q.Key == key then new else q)).find? (fun q => q.Key == key) =
      some new := by
  induction l with
  | nil => simp at h
  | cons x rest ih =>
    cases hb : (x.Key == key) with
    | true =>
      have hn : (new.Key == key) = true := by simp [hnew]
      simp only [List.map_cons, List.find?_cons, hb, ↓reduceIte, hn]
    | false =>
      have hrest : rest.find? (fun q => q.Key == key) = some p := by
        simpa [List.find?, hb] using h
      simp only [List.map_cons, List.find?_cons, hb, Bool.false_eq_true, ↓reduceIte]
      exact ih hrest

/-- After the lock on a key is taken, the entry of the key is held under the
session of the lock. -/
theorem lookup_locked (m : Model) (key : String)
    (h : readFree (m.lookup key) = true) :
    (m.locked key).lookup key = some ⟨key, "", sessionOf key⟩ := by
  cases hp : m.lookup key with
  | none =>
    have hp1 := hp
    simp only [Model.lookup] at hp1
    simp [Model.locked, Model.lockLock, hp, Model.lookup, List.find?_append, hp1]
  | some p =>
    rw [hp] at h
    simp only [readFree, beq_iff_eq] at h
    have hp1 := hp
    simp only [Model.lookup] at hp1
    have := find?_map_replace m.kv key ⟨key, "", sessionOf key⟩ p rfl hp1
    have hne : (p.Session != "") = false := by simp [h]
    simp only [Model.locked, Model.lockLock, hp]
    simp only [hne, Bool.false_eq_true, ↓reduceIte, Model.lookup]
    exact this

/-! ## The claims on the slot selector -/

/-- C1 (the code departs from it): over the listing `[slot/a, slot/b]`,
`rand.Perm(2)` returns `[1, 0]`, and the first key the round examines is
`slot/a`, which is `potentialKeys[0]` and not `potentialKeys[p[0]]`; with the
permutation `[0, 1]` the keys examined are the same. -/
theorem aquiredLock_ignores_permutation :
    (model.kvList "slot/" twoSlots).1 =
      .ok [⟨"slot/a", "handle-1", ""⟩, ⟨"slot/b", "handle-2", ""⟩] ∧
    (model.randPerm 2 twoSlots).1 = [1, 0] ∧
    (aquiredLockPass model "slot/" (worldOf twoSlots "i-X" "")).2.trace =
      [.kvList "slot/" (.ok [⟨"slot/a", "handle-1", ""⟩, ⟨"slot/b", "handle-2", ""⟩]),
        .randPerm 2 [1, 0],
        .kvGet "lock/slot/a" none none,
        .lockKey "lock/slot/a" (.ok ()),
        .lockLock ⟨"lock/slot/a"⟩ .acquired] ∧
    (aquiredLockPass model "slot/" (worldOf twoSlotsId "i-X" "")).2.trace =
      [.kvList "slot/" (.ok [⟨"slot/a", "handle-1", ""⟩, ⟨"slot/b", "handle-2", ""⟩]),
        .randPerm 2 [0, 1],
        .kvGet "lock/slot/a" none none,
        .lockKey "lock/slot/a" (.ok ()),
        .lockLock ⟨"lock/slot/a"⟩ .acquired] := by
  refine ⟨rfl, rfl, rfl, rfl⟩

/-- C7 (the code departs from it): when the read of the lock entry of `slot/a`
fails, `aquiredLock` does not abort: it builds and takes the lock on
`lock/slot/a`, stores it with the value of the slot in the manager, and
returns. -/
theorem aquiredLock_goes_on_after_failed_read :
    (aquiredLock readFails "slot/" 1 (worldOf oneSlot "i-X" "")).1 = .ok () ∧
    (aquiredLock readFails "slot/" 1 (worldOf oneSlot "i-X" "")).2.mgr.lock =
      some ⟨"lock/slot/a"⟩ ∧
    (aquiredLock readFails "slot/" 1 (worldOf oneSlot "i-X" "")).2.mgr.allocationID =
      "handle-1" ∧
    (aquiredLock readFails "slot/" 1 (worldOf oneSlot "i-X" "")).2.trace =
      [.kvList "slot/" (.ok [⟨"slot/a", "handle-1", ""⟩]),
        .randPerm 1 [0],
        .kvGet "lock/slot/a" none (some "connection refused"),
        .lockKey "lock/slot/a" (.ok ()),
        .lockLock ⟨"lock/slot/a"⟩ .acquired] := by
  refine ⟨rfl, rfl, rfl, rfl⟩

/-- C9: on the modelled store, when `k` is the first key of the listing under
`pfx` whose lock entry shows no session, one round of `aquiredLock` returns
with the lock on `lock/<k>` and the value stored at `k` in the manager; the
lock entry is then held under the session of the lock; and the calls of the
round are the listing, the draw of the permutation, one read for each listed
key before `k`, and the read, the construction and the acquisition of the
lock of `k`, after which no key is visited.  With one round or more allowed,
`aquiredLock` returns in that state. -/
theorem aquiredLockPass_takes_first_free_slot (pfx : String) (w : World Model) (k : KVPair)
    (hk : (listing pfx w.env).find?
      (fun k => readFree (w.env.lookup ("lock/" ++ k.Key))) = some k) :
    (aquiredLockPass model pfx w).1 = .ok .returned ∧
    (∀ fuel, aquiredLock model pfx (fuel + 1) w = (.ok (), (aquiredLockPass model pfx w).2)) ∧
    (aquiredLockPass model pfx w).2.mgr =
      { w.mgr with lock := some ⟨"lock/" ++ k.Key⟩, allocationID := k.Value } ∧
    (aquiredLockPass model pfx w).2.env.lookup ("lock/" ++ k.Key) =
      some ⟨"lock/" ++ k.Key, "", sessionOf ("lock/" ++ k.Key)⟩ ∧
    (aquiredLockPass model pfx w).2.trace =
      w.trace ++
        ([.kvList pfx (.ok (listing pfx w.env)),
            .randPerm (listing pfx w.env).length
              (model.randPerm (listing pfx w.env).length w.env).1] ++
          ((listing pfx w.env).takeWhile
            (fun k => !readFree (w.env.lookup ("lock/" ++ k.Key)))).map (readOf w.env) ++
          [readOf w.env k, .lockKey ("lock/" ++ k.Key) (.ok ()),
            .lockLock ⟨"lock/" ++ k.Key⟩ .acquired]) := by
  have hkv := model_randPerm_kv (listing pfx w.env).length w.env
  have hlen := model_randPerm_length (listing pfx w.env).length w.env
  have hpass : aquiredLockPass model pfx w =
      visitList model (listing pfx w.env)
        { env := (model.randPerm (listing pfx w.env).length w.env).2
          mgr := w.mgr
          next := w.next
          trace := w.trace ++ [.kvList pfx (.ok (listing pfx w.env)),
            .randPerm (listing pfx w.env).length
              (model.randPerm (listing pfx w.env).length w.env).1] } := by
    have hl : kvList model pfx w =
        (.ok (listing pfx w.env),
          { w with trace := w.trace ++ [.kvList pfx (.ok (listing pfx w.env))] }) := rfl
    simp only [aquiredLockPass, hl]
    rw [visitAll_range model _ _ _ (by simpa [randPerm] using hlen)]
    simp [randPerm, record]
  have hk2 : (listing pfx w.env).find?
      (fun k => readFree
        ((model.randPerm (listing pfx w.env).length w.env).2.lookup ("lock/" ++ k.Key))) =
      some k := by
    simpa only [lookup_of_kv_eq _ _ hkv] using hk
  have hfree : readFree (w.env.lookup ("lock/" ++ k.Key)) = true := by
    simpa using List.find?_some hk
  have hfuel : ∀ fuel, aquiredLock model pfx (fuel + 1) w =
      (.ok (), (aquiredLockPass model pfx w).2) := by
    intro fuel
    rw [aquiredLock_succ, hpass, model_visitList_first_free _ k _ hk2]
  refine ⟨by rw [hpass, model_visitList_first_free _ k _ hk2], hfuel, ?_⟩
  rw [hpass, model_visitList_first_free _ k _ hk2]
  refine ⟨rfl, ?_, ?_⟩
  · simp only
    have hkv2 : ((model.randPerm (listing pfx w.env).length w.env).2.locked
        ("lock/" ++ k.Key)).kv = (w.env.locked ("lock/" ++ k.Key)).kv := by
      simp [Model.locked, Model.lockLock, lookup_of_kv_eq _ _ hkv, hkv]
      split <;> try split
      all_goals simp [hkv]
    rw [lookup_of_kv_eq _ _ hkv2]
    exact lookup_locked w.env _ hfree
  · simp [readOf_of_kv_eq _ _ hkv, lookup_of_kv_eq _ _ hkv]

theorem aquiredLockPass_takes_first_free_slot_witness :
    (listing "slot/" twoSlots).find?
        (fun k => readFree (twoSlots.lookup ("lock/" ++ k.Key))) =
      some ⟨"slot/a", "handle-1", ""⟩ ∧
    (aquiredLockPass model "slot/" (worldOf twoSlots "i-X" "")).1 = .ok .returned ∧
    (aquiredLockPass model "slot/" (worldOf twoSlots "i-X" "")).2.mgr.lock =
      some ⟨"lock/slot/a"⟩ ∧
    (aquiredLockPass model "slot/" (worldOf twoSlots "i-X" "")).2.mgr.allocationID =
      "handle-1" ∧
    (listing "slot/" afterX).find?
        (fun k => readFree (afterX.lookup ("lock/" ++ k.Key))) =
      some ⟨"slot/b", "handle-2", ""⟩ ∧
    (aquiredLockPass model "slot/" (worldOf afterX "i-Y" "")).1 = .ok .returned ∧
    (aquiredLockPass model "slot/" (worldOf afterX "i-Y" "")).2.mgr.lock =
      some ⟨"lock/slot/b"⟩ ∧
    (aquiredLockPass model "slot/" (worldOf afterX "i-Y" "")).2.mgr.allocationID =
      "handle-2" ∧
    (aquiredLockPass model "slot/" (worldOf afterX "i-Y" "")).2.mgr.allocationID ≠
      (aquiredLockPass model "slot/" (worldOf twoSlots "i-X" "")).2.mgr.allocationID :=
  ⟨rfl,
    (aquiredLockPass_takes_first_free_slot "slot/" (worldOf twoSlots "i-X" "")
      ⟨"slot/a", "handle-1", ""⟩ rfl).1,
    congrArg eIPManager.lock
      (aquiredLockPass_takes_first_free_slot "slot/" (worldOf twoSlots "i-X" "")
        ⟨"slot/a", "handle-1", ""⟩ rfl).2.2.1,
    congrArg eIPManager.allocationID
      (aquiredLockPass_takes_first_free_slot "slot/" (worldOf twoSlots "i-X" "")
        ⟨"slot/a", "handle-1", ""⟩ rfl).2.2.1,
    rfl,
    (aquiredLockPass_takes_first_free_slot "slot/" (worldOf afterX "i-Y" "")
      ⟨"slot/b", "handle-2", ""⟩ rfl).1,
    congrArg eIPManager.lock
      (aquiredLockPass_takes_first_free_slot "slot/" (worldOf afterX "i-Y" "")
        ⟨"slot/b", "handle-2", ""⟩ rfl).2.2.1,
    congrArg eIPManager.allocationID
      (aquiredLockPass_takes_first_free_slot "slot/" (worldOf afterX "i-Y" "")
        ⟨"slot/b", "handle-2", ""⟩ rfl).2.2.1,
    by decide⟩

/-- C6: in every state and for all services, a key whose lock entry is read
with a non-empty session is skipped, the inner loop going on with the next
index after that read alone; in the history of `aquiredLock`, cut after any
number of rounds, every construction and every acquisition of a lock follows
a read of the same lock entry that showed no pair or an empty session; and
when `aquiredLock` returns, the last calls are such a read of `lock/<k>` for
a listed key `k`, the construction of the lock and its acquisition, and the
manager holds that lock and the value of `k`. -/
theorem aquiredLock_never_takes_held_slot (sv : Services σ) (pfx : String) (fuel : Nat)
    (w : World σ) :
    (∀ keys i is k lk, keys[i]? = some k →
        (sv.kvGet ("lock/" ++ k.Key) w.env).1.1 = some lk → lk.Session ≠ "" →
        visitAll sv keys (i :: is) w =
          visitAll sv keys is (kvGet sv ("lock/" ++ k.Key) w).2) ∧
    (∃ seg, (aquiredLock sv pfx fuel w).2.trace = w.trace ++ seg ∧
      guardedFrom none seg = true) ∧
    ((aquiredLock sv pfx fuel w).1 = .ok () →
      ∃ keys k pre pair err, (∃ env, (sv.kvList pfx env).1 = .ok keys) ∧ k ∈ keys ∧
        (aquiredLock sv pfx fuel w).2.trace =
          pre ++ [.kvGet ("lock/" ++ k.Key) pair err, .lockKey ("lock/" ++ k.Key) (.ok ()),
            .lockLock ⟨"lock/" ++ k.Key⟩ .acquired] ∧
        (∀ lk, pair = some lk → lk.Session = "") ∧
        (aquiredLock sv pfx fuel w).2.mgr.lock = some ⟨"lock/" ++ k.Key⟩ ∧
        (aquiredLock sv pfx fuel w).2.mgr.allocationID = k.Value) := by
  refine ⟨?_, ?_, ?_⟩
  · intro keys i is k lk hk hget hses
    have hfree : readFree (sv.kvGet ("lock/" ++ k.Key) w.env).1.1 = false := by
      rw [hget]
      simpa [readFree] using hses
    have hv : visit sv keys i w = (.ok .goOn, (kvGet sv ("lock/" ++ k.Key) w).2) := by
      simp [visit, visitKey, hk, kvGet, record, hfree]
    rw [visitAll_cons, hv]
    simp
  · obtain ⟨seg, hs, hg⟩ := aquiredLock_guarded sv pfx fuel w
    exact ⟨seg, hs, hg none⟩
  · intro h
    obtain ⟨keys, k, hl, hk, pre, pair, err, ht, hfree, hlock, halloc⟩ :=
      aquiredLock_returned sv pfx fuel w h
    refine ⟨keys, k, pre, pair, err, hl, hk, ht, ?_, hlock, halloc⟩
    intro lk hp
    subst hp
    simpa [readFree] using hfree

theorem aquiredLock_never_takes_held_slot_witness :
    visitAll model (listing "slot/" heldA) [0, 1] (worldOf heldA "i-Y" "") =
      visitAll model (listing "slot/" heldA) [1]
        (kvGet model ("lock/" ++ "slot/a") (worldOf heldA "i-Y" "")).2 ∧
    (aquiredLock model "slot/" 1 (worldOf heldA "i-Y" "")).1 = .ok () ∧
    ∃ keys k pre pair err, (∃ env, (model.kvList "slot/" env).1 = .ok keys) ∧ k ∈ keys ∧
      (aquiredLock model "slot/" 1 (worldOf heldA "i-Y" "")).2.trace =
        pre ++ [.kvGet ("lock/" ++ k.Key) pair err, .lockKey ("lock/" ++ k.Key) (.ok ()),
          .lockLock ⟨"lock/" ++ k.Key⟩ .acquired] ∧
      (∀ lk, pair = some lk → lk.Session = "") ∧
      (aquiredLock model "slot/" 1 (worldOf heldA "i-Y" "")).2.mgr.lock =
        some ⟨"lock/" ++ k.Key⟩ ∧
      (aquiredLock model "slot/" 1 (worldOf heldA "i-Y" "")).2.mgr.allocationID = k.Value :=
  ⟨(aquiredLock_never_takes_held_slot model "slot/" 1 (worldOf heldA "i-Y" "")).1
      (listing "slot/" heldA) 0 [1] ⟨"slot/a", "handle-1", ""⟩
      ⟨"lock/slot/a", "", "session:lock/slot/a"⟩ rfl rfl (by decide),
    rfl,
    (aquiredLock_never_takes_held_slot model "slot/" 1 (worldOf heldA "i-Y" "")).2.2 rfl⟩

end EipManager
